import Mathlib

/- Verification of the episode-boundary inference engine of split_episodes.py.

Shallow embedding conventions: Python floats (times, durations, targets) are
modelled as rationals; chapter indices and episode numbers as naturals; the
mutable per-file state is passed functionally. Each definition mirrors the
Python function of the same (or clearly related) name. -/

structure Chapter where
  index : ℕ
  start_time : ℚ
  end_time : ℚ
  name : String
deriving DecidableEq

instance : Inhabited Chapter := ⟨⟨0, 0, 0, ""⟩⟩

/-- Chapter.duration property (line 31): end_time - start_time. -/
def Chapter.duration (c : Chapter) : ℚ := c.end_time - c.start_time

structure Episode where
  number : ℕ
  chapters : List Chapter
deriving DecidableEq

instance : Inhabited Episode := ⟨⟨0, []⟩⟩

/-- Episode.start_time (line 58): chapters[0].start_time if chapters else 0.
The default Chapter has start_time 0, so headI matches the Python default. -/
def Episode.start_time (e : Episode) : ℚ := (e.chapters.headI).start_time

/-- Episode.end_time (line 62): chapters[-1].end_time if chapters else 0. -/
def Episode.end_time (e : Episode) : ℚ := (e.chapters.getLastI).end_time

/-- Episode.duration (line 66): end_time - start_time. -/
def Episode.duration (e : Episode) : ℚ := e.end_time - e.start_time

structure MkvFile where
  path : String
  chapters : List Chapter
  total_duration : ℚ
  episodes : List Episode
  skip : Bool
deriving DecidableEq

instance : Inhabited MkvFile := ⟨⟨"", [], 0, [], false⟩⟩

/-- Sum of the durations of a chapter run (the segmenter's accumulator value). -/
def sumDur (l : List Chapter) : ℚ := (l.map Chapter.duration).sum

/-- The split decision of split_by_duration_target (lines 459-513), for one
non-final chapter.  `firstStart` is current_chapters[0].start_time, `acc` is
the accumulated duration including the current chapter, `accNext` is
accumulated_with_next.  min_duration = target*(1-tol), max_overshoot =
target*(1+tol*2), min_valid_episode = target*0.5, remaining_duration =
total - (firstStart + acc).  The `continue` on line 493 (remaining too short)
is the same as not splitting. -/
def shouldSplit (total target tol firstStart acc accNext : ℚ) : Bool :=
  if target * (1 - tol) ≤ acc then
    if total - (firstStart + acc) < target * (1 / 2) then false
    else decide (|acc - target| ≤ |accNext - target|) ||
      decide (target * (1 + tol * 2) < accNext)
  else if target * (1 + tol * 2) < acc then
    decide (target * (1 / 2) ≤ total - (firstStart + acc))
  else false

/-- The chapter walk of split_by_duration_target (lines 463-521): `cur` is
current_chapters before appending the current chapter, `acc` the accumulated
duration before adding it.  The last chapter closes the final episode
unconditionally; a split closes the episode and resets the accumulator. -/
def segGo (total target tol : ℚ) : List Chapter → List Chapter → ℚ → ℕ → List Episode
  | [], _, _, _ => []
  | [c], cur, _, epNum => [Episode.mk epNum (cur ++ [c])]
  | c :: next :: rest, cur, acc, epNum =>
    if shouldSplit total target tol ((cur ++ [c]).headI).start_time (acc + c.duration)
        (acc + c.duration + next.duration) then
      Episode.mk epNum (cur ++ [c]) :: segGo total target tol (next :: rest) [] 0 (epNum + 1)
    else
      segGo total target tol (next :: rest) (cur ++ [c]) (acc + c.duration) epNum

/-- split_by_duration_target (lines 438-523).  The Python default tolerance is
0.20; callers in this file pass 1/5 explicitly. -/
def split_by_duration_target (mkv : MkvFile) (target_duration tolerance : ℚ)
    (start_episode : ℕ) : List Episode :=
  segGo mkv.total_duration target_duration tolerance mkv.chapters [] 0 start_episode

/-- The chunking loop of split_by_chapter_count (line 405):
`range(0, len(chapters), n)` slices.  Python raises on n = 0; here n = 0
returns [] and all claims require 0 < n. -/
def chunkChapters (n : ℕ) (l : List Chapter) : List (List Chapter) :=
  if h : n = 0 ∨ l = [] then []
  else l.take n :: chunkChapters n (l.drop n)
termination_by l.length
decreasing_by
  push_neg at h
  have h1 : 0 < n := Nat.pos_of_ne_zero h.1
  have h2 : 0 < l.length := List.length_pos.mpr h.2
  simp only [List.length_drop]
  omega

/-- Episode numbering in split_by_chapter_count (lines 406-409): each
non-empty slice becomes an episode and bumps the counter. -/
def numberChunks (epNum : ℕ) : List (List Chapter) → List Episode
  | [] => []
  | cs :: rest =>
    if cs = [] then numberChunks epNum rest
    else Episode.mk epNum cs :: numberChunks (epNum + 1) rest

/-- split_by_chapter_count (lines 400-411). -/
def split_by_chapter_count (mkv : MkvFile) (chapters_per_episode : ℕ)
    (start_episode : ℕ) : List Episode :=
  numberChunks start_episode (chunkChapters chapters_per_episode mkv.chapters)

/-- Python's built-in round (half to even), used on line 339. -/
def pythonRound (q : ℚ) : ℤ :=
  if q - ⌊q⌋ < 1 / 2 then ⌊q⌋
  else if (1 : ℚ) / 2 < q - ⌊q⌋ then ⌊q⌋ + 1
  else if ⌊q⌋ % 2 = 0 then ⌊q⌋ else ⌊q⌋ + 1

def totalRuntime (files : List MkvFile) : ℚ := (files.map MkvFile.total_duration).sum

/-- The inner loop of auto_detect_all (lines 349-356): run the segmenter over
every file with continuous numbering starting at 1, collecting all episodes. -/
def runAllFiles (target : ℚ) : List MkvFile → ℕ → List Episode
  | [], _ => []
  | f :: fs, epNum =>
    let eps := split_by_duration_target f target (1 / 5) epNum
    eps ++ runAllFiles target fs (epNum + eps.length)

/-- A surviving candidate of auto_detect_all (lines 375-380).  The code stores
cv = sqrt(variance)/avg (a float); a square root is not rational, so we store
its square cvSq = variance/avg^2 instead.  Every stored candidate has
avg > 0 (the [18,35]-minute mean check precedes appending), and on
nonnegatives x ↦ x^2 is strictly monotone, so comparing cvSq is exactly
comparing cv: equal / lower cvSq iff equal / lower cv. -/
structure Candidate where
  total_episodes : ℕ
  target_duration : ℚ
  avg_duration : ℚ
  cvSq : ℚ
deriving DecidableEq

def meanQ (l : List ℚ) : ℚ := l.sum / l.length

/-- Population variance (lines 366-367): sum((d-avg)^2)/len. -/
def popVar (l : List ℚ) : ℚ := ((l.map (fun d => (d - meanQ l) ^ 2)).sum) / l.length

/-- One iteration of the target loop of auto_detect_all (lines 337-380), given
the candidates accepted so far (used by the duplicate-estimate check on
line 345, which compares the new ESTIMATE against previous candidates' ACTUAL
episode totals).  Returns the candidate to append, or none when this target
is skipped or rejected.  The code computes cv before the mean-range check and
would use infinity when avg <= 0; that value is never stored because appended
candidates have avg in [18,35] minutes. -/
def tryTarget (files : List MkvFile) (prev : List Candidate) (target_minutes : ℕ) :
    Option Candidate :=
  let target_seconds : ℚ := (target_minutes : ℚ) * 60
  let estimated_total : ℤ := pythonRound (totalRuntime files / target_seconds)
  if estimated_total < (files.length : ℤ) then none
  else if prev.any (fun c => decide ((c.total_episodes : ℤ) = estimated_total)) then none
  else
    let all_episodes := runAllFiles target_seconds files 1
    if all_episodes = [] then none
    else
      let durations := all_episodes.map Episode.duration
      if durations.length < 2 then none
      else
        let avg := meanQ durations
        let cvSq := popVar durations / avg ^ 2
        if ¬ ((18 : ℚ) ≤ avg / 60 ∧ avg / 60 ≤ 35) then none
        else some (Candidate.mk all_episodes.length target_seconds avg cvSq)

/-- The fixed hypothesis set of target durations in minutes (line 337). -/
def targetMinutesList : List ℕ := [20, 22, 24, 26, 28, 30]

/-- The candidate list built by auto_detect_all, in target order. -/
def buildCandidates (files : List MkvFile) : List Candidate :=
  targetMinutesList.foldl
    (fun acc m =>
      match tryTarget files acc m with
      | some c => acc ++ [c]
      | none => acc) []

/-- Comparison step used to model `candidates.sort(key=cv)[0]` (lines 386-387):
Python's sort is stable, so the first element after sorting is the earliest
candidate attaining the minimal key; a left fold keeping the current best on
ties computes exactly that element. -/
def pickf (b x : Candidate) : Candidate := if x.cvSq < b.cvSq then x else b

def pickBest : List Candidate → Option Candidate
  | [] => none
  | c :: cs => some (cs.foldl pickf c)

/-- Applying the best candidate (lines 390-395): re-run the segmenter over all
files with continuous numbering and store the episodes on each file. -/
def applyTarget (target : ℚ) : List MkvFile → ℕ → List MkvFile
  | [], _ => []
  | f :: fs, epNum =>
    let eps := split_by_duration_target f target (1 / 5) epNum
    MkvFile.mk f.path f.chapters f.total_duration eps f.skip
      :: applyTarget target fs (epNum + eps.length)

/-- auto_detect_all (lines 322-397): none models the `return False` path (no
candidate survived); otherwise the files with the winning candidate's plan
applied (lines 386-397). -/
def auto_detect_all (files : List MkvFile) : Option (List MkvFile) :=
  Option.map (fun best => applyTarget best.target_duration files 1)
    (pickBest (buildCandidates files))

/-- Inner loop of find_episode_location (lines 700-702), tracking the episode
index. -/
def findEpGo (epNum : ℕ) : List Episode → ℕ → Option ℕ
  | [], _ => none
  | ep :: rest, i => if ep.number = epNum then some i else findEpGo epNum rest (i + 1)

/-- find_episode_location (lines 692-703), returning (file index, episode
index) instead of the file object. -/
def findLocGo (epNum : ℕ) : List MkvFile → ℕ → Option (ℕ × ℕ)
  | [], _ => none
  | f :: fs, fi =>
    if f.skip then findLocGo epNum fs (fi + 1)
    else match findEpGo epNum f.episodes 0 with
      | some i => some (fi, i)
      | none => findLocGo epNum fs (fi + 1)

def find_episode_location (files : List MkvFile) (epNum : ℕ) : Option (ℕ × ℕ) :=
  findLocGo epNum files 0

/-- Expected start chapter of an edited episode (lines 751-755): 1 for the
file's first episode, else previous episode's last chapter index + 1.
Python would raise on a previous episode with no chapters; getLastI then
defaults to index 0 (unreachable for segmenter-produced plans). -/
def expected_start (mkv : MkvFile) (ei : ℕ) : ℤ :=
  if ei = 0 then 1
  else (((mkv.episodes.getI (ei - 1)).chapters.getLastI).index : ℤ) + 1

/-- Chapters selected for the edited episode (line 762). -/
def rangeChapters (mkv : MkvFile) (start_ch end_ch : ℤ) : List Chapter :=
  mkv.chapters.filter (fun ch => decide (start_ch ≤ (ch.index : ℤ) ∧ (ch.index : ℤ) ≤ end_ch))

/-- Chapters after the edited range (lines 772-773). -/
def tailChapters (mkv : MkvFile) (end_ch : ℤ) : List Chapter :=
  mkv.chapters.filter (fun ch => decide (end_ch + 1 ≤ (ch.index : ℤ)))

/-- The temporary MkvFile built for re-detection (lines 781-785). -/
def tempFileFor (mkv : MkvFile) (rem : List Chapter) : MkvFile :=
  MkvFile.mk mkv.path rem ((rem.getLastI).end_time - (rem.headI).start_time) [] false

/-- edit_episode (lines 706-796), with the interactive prompt modelled as the
already-parsed chapter range (start_ch, end_ch).  Every rejection path
returns the files unchanged. -/
def edit_episode (files : List MkvFile) (episode_num : ℕ) (target_duration : ℚ)
    (start_ch end_ch : ℤ) : List MkvFile :=
  match find_episode_location files episode_num with
  | none => files
  | some (fi, ei) =>
    match files[fi]? with
    | none => files
    | some mkv =>
      match mkv.episodes[ei]? with
      | none => files
      | some ep =>
        if start_ch < 1 ∨ (mkv.chapters.length : ℤ) < end_ch ∨ end_ch < start_ch then files
        else if start_ch ≠ expected_start mkv ei then files
        else
          let new_chapters := rangeChapters mkv start_ch end_ch
          if new_chapters = [] then files
          else
            let kept := (mkv.episodes.set ei (Episode.mk ep.number new_chapters)).take (ei + 1)
            let rem := tailChapters mkv end_ch
            let new_episodes :=
              if rem = [] then []
              else split_by_duration_target (tempFileFor mkv rem) target_duration (1 / 5)
                (ep.number + 1)
            files.set fi
              (MkvFile.mk mkv.path mkv.chapters mkv.total_duration (kept ++ new_episodes) mkv.skip)

/-- The per-file numbering loop of renumber_all_episodes (lines 805-807). -/
def assignNumbers (n : ℕ) : List Episode → List Episode
  | [] => []
  | e :: es => Episode.mk n e.chapters :: assignNumbers (n + 1) es

/-- renumber_all_episodes (lines 799-807): skipped files are left untouched. -/
def renumberGo (n : ℕ) : List MkvFile → List MkvFile
  | [] => []
  | f :: fs =>
    if f.skip then f :: renumberGo n fs
    else MkvFile.mk f.path f.chapters f.total_duration (assignNumbers n f.episodes) f.skip
      :: renumberGo (n + f.episodes.length) fs

def renumber_all_episodes (files : List MkvFile) : List MkvFile := renumberGo 1 files

/-- The skip toggle of interactive_review (line 852). -/
def toggleSkip (files : List MkvFile) (i : ℕ) : List MkvFile :=
  match files[i]? with
  | none => files
  | some f => files.set i (MkvFile.mk f.path f.chapters f.total_duration f.episodes (!f.skip))

inductive ReviewCmd where
  | editEp (epNum : ℕ) (startCh endCh : ℤ)
  | skipFile (idx : ℕ)
  | goCmd
  | quitCmd
deriving DecidableEq

/-- One state transition of interactive_review (lines 810-861) on a parsed
command: an edit command always runs edit_episode then renumber_all_episodes
(even when the edit was rejected); a skip command with a valid 0-based file
index toggles then renumbers; go/quit leave the plan state unchanged. -/
def reviewStep (files : List MkvFile) (target : ℚ) : ReviewCmd → List MkvFile
  | ReviewCmd.editEp n s e => renumber_all_episodes (edit_episode files n target s e)
  | ReviewCmd.skipFile i =>
    if i < files.length then renumber_all_episodes (toggleSkip files i) else files
  | ReviewCmd.goCmd => files
  | ReviewCmd.quitCmd => files

/-- Episode numbers over non-skipped files in scan order. -/
def activeEpisodeNumbers (files : List MkvFile) : List ℕ :=
  ((files.filter (fun f => !f.skip)).map (fun f => f.episodes.map Episode.number)).flatten

/-- Total number of episodes belonging to non-skipped files. -/
def totalActiveEpisodes (files : List MkvFile) : ℕ :=
  ((files.filter (fun f => !f.skip)).map (fun f => f.episodes.length)).sum

/-- Two-digit zero padding, as Python's {:02d}. -/
def fmt2 (n : ℕ) : String := if n < 10 then "0" ++ toString n else toString n

/-- Output name format of process_file (line 976). -/
def episodeFileName (show_name : String) (season epNum : ℕ) : String :=
  show_name ++ " S" ++ fmt2 season ++ "E" ++ fmt2 epNum ++ ".mkv"

/-- Split points of process_file (lines 933-936): the first chapter index of
every episode but the first (mkvmerge cuts immediately before each named
chapter). -/
def splitPoints (mkv : MkvFile) : List ℕ :=
  (mkv.episodes.drop 1).map (fun ep => (ep.chapters.headI).index)

inductive ToolRequest where
  | splitAt (points : List ℕ)
  | remux
deriving DecidableEq

structure OutputSpec where
  partNum : ℕ
  name : String
  renumberRequested : Bool
deriving DecidableEq

/-- The rename loop of process_file (lines 973-987) as a pure plan: part i+1
maps to episode i, renamed with the episode's global number; a chapter
renumber is requested on every output. -/
def outputSpecs (show_name : String) (season : ℕ) : ℕ → List Episode → List OutputSpec
  | _, [] => []
  | i, ep :: rest =>
    OutputSpec.mk (i + 1) (episodeFileName show_name season ep.number) true
      :: outputSpecs show_name season (i + 1) rest

/-- The external requests process_file makes (lines 919-992): none when the
file has no episodes (line 928); a plain remux when there is a single episode
(no split points, lines 959-970); otherwise a chapter split. -/
def process_file_plan (mkv : MkvFile) (show_name : String) (season : ℕ) :
    Option (ToolRequest × List OutputSpec) :=
  if mkv.episodes = [] then none
  else
    some (if splitPoints mkv = [] then ToolRequest.remux
      else ToolRequest.splitAt (splitPoints mkv),
      outputSpecs show_name season 0 mkv.episodes)

/-- Outcome oracle for the external container tool: whether the initial
mkvmerge split/remux call succeeds, whether the expected part file numbered
i exists afterwards, and whether renumber_chapters succeeds on part i. -/
structure ToolOracle where
  splitOk : Bool
  partPresent : ℕ → Bool
  renumberOk : ℕ → Bool

def renumberWarning : String := "Warning: Could not renumber chapters"

/-- The rename loop of process_file (lines 973-990) under an oracle.  Result:
(success flag, final output files left on disk, printed warnings).  A failed
renumber_chapters only prints a warning and the loop continues (lines
984-987); a missing part returns False immediately, keeping the outputs
already renamed (lines 988-990, no cleanup on this path). -/
def runEpisodes (oracle : ToolOracle) (show_name : String) (season : ℕ) :
    ℕ → List Episode → List String → List String → Bool × List String × List String
  | _, [], outs, warns => (true, outs, warns)
  | i, ep :: rest, outs, warns =>
    if oracle.partPresent (i + 1) then
      runEpisodes oracle show_name season (i + 1) rest
        (outs ++ [episodeFileName show_name season ep.number])
        (if oracle.renumberOk (i + 1) then warns else warns ++ [renumberWarning])
    else (false, outs, warns)

/-- process_file (lines 919-1000) under an oracle.  A failing split call hits
the except handler (lines 994-1000): all temporary part files are deleted and
no renamed output exists, so the file yields no outputs. -/
def process_file_model (oracle : ToolOracle) (mkv : MkvFile) (show_name : String)
    (season : ℕ) : Bool × List String × List String :=
  if mkv.episodes = [] then (false, [], [])
  else if oracle.splitOk then runEpisodes oracle show_name season 0 mkv.episodes [] []
  else (false, [], [])

/-- process_files (lines 1003-1026): every non-skipped file is processed in
order regardless of earlier per-file failures; `oracles i` is the tool
behaviour seen by the i-th active file. -/
def process_files_model (oracles : ℕ → ToolOracle) (files : List MkvFile)
    (show_name : String) (season : ℕ) : List (Bool × List String × List String) :=
  ((files.filter (fun f => !f.skip)).enum).map
    (fun p => process_file_model (oracles p.1) p.2 show_name season)

/- Concrete example data used by counterexamples and witnesses. -/

def exCh1 : Chapter := ⟨1, 0, 600, "a"⟩
def exCh2 : Chapter := ⟨2, 600, 1200, "b"⟩
def exCh3 : Chapter := ⟨3, 1200, 1800, "c"⟩
def exCh4 : Chapter := ⟨4, 1800, 2400, "d"⟩

/-- One file, two chapters of 10 minutes each (20 minutes total). -/
def exFile2 : MkvFile := ⟨"one", [exCh1, exCh2], 1200, [], false⟩

/-- One file, four chapters of 10 minutes each (40 minutes total). -/
def exFile4 : MkvFile := ⟨"two", [exCh1, exCh2, exCh3, exCh4], 2400, [], false⟩

def exEp1 : Episode := ⟨1, [exCh1, exCh2]⟩
def exEp2 : Episode := ⟨2, [exCh3, exCh4]⟩

/-- exFile4 with the two-episode plan the segmenter produces at T = 1200. -/
def exFile4E : MkvFile := ⟨"two", [exCh1, exCh2, exCh3, exCh4], 2400, [exEp1, exEp2], false⟩

/-- A skipped file whose stale episode numbering must be left untouched. -/
def exFileSkip : MkvFile := ⟨"skp", [exCh1, exCh2], 1200, [⟨7, [exCh1, exCh2]⟩], true⟩

/-- The single surviving auto-detect candidate on [exFile4]: target 20 min,
two 20-minute episodes, mean 1200 s, zero variance. -/
def cand20 : Candidate := Candidate.mk 2 1200 1200 0

/- Coverage lemmas for the two splitters. -/

theorem segGo_flatten (total target tol : ℚ) :
    ∀ (l cur : List Chapter) (acc : ℚ) (n : ℕ), l ≠ [] →
      ((segGo total target tol l cur acc n).map Episode.chapters).flatten = cur ++ l := by
  intro l
  induction l with
  | nil => intro _ _ _ h; exact absurd rfl h
  | cons c rest ih =>
    intro cur acc n _
    cases rest with
    | nil => simp [segGo]
    | cons next rest' =>
      by_cases hs : shouldSplit total target tol ((cur ++ [c]).headI).start_time
          (acc + c.duration) (acc + c.duration + next.duration) = true
      · simp only [segGo, if_pos hs, List.map_cons, List.flatten_cons]
        rw [ih [] 0 (n + 1) (by simp)]
        simp
      · simp only [segGo, if_neg hs]
        rw [ih (cur ++ [c]) (acc + c.duration) n (by simp)]
        simp

theorem chunkChapters_flatten (n : ℕ) (hn : n ≠ 0) (l : List Chapter) :
    (chunkChapters n l).flatten = l := by
  suffices H : ∀ (k : ℕ) (l : List Chapter), l.length ≤ k → (chunkChapters n l).flatten = l from
    H l.length l le_rfl
  intro k
  induction k with
  | zero =>
    intro l hl
    have hl0 : l = [] := List.eq_nil_of_length_eq_zero (Nat.le_zero.mp hl)
    rw [chunkChapters]
    simp [hl0]
  | succ k ih =>
    intro l hl
    rw [chunkChapters]
    split
    · next h =>
      rcases h with h | h
      · exact absurd h hn
      · simp [h]
    · next h =>
      push_neg at h
      have h1 : 0 < n := Nat.pos_of_ne_zero h.1
      have h2 : 0 < l.length := List.length_pos.mpr h.2
      have hdrop : (l.drop n).length ≤ k := by
        simp only [List.length_drop]
        omega
      simp only [List.flatten_cons]
      rw [ih _ hdrop, List.take_append_drop]

theorem numberChunks_flatten : ∀ (cs : List (List Chapter)) (s : ℕ),
    ((numberChunks s cs).map Episode.chapters).flatten = cs.flatten := by
  intro cs
  induction cs with
  | nil => intro s; rfl
  | cons c rest ih =>
    intro s
    by_cases hc : c = []
    · simp [numberChunks, hc, ih]
    · simp [numberChunks, hc, ih]

/-- Claim C2: for every non-empty chapter list and every target duration,
tolerance and starting number, the episodes of split_by_duration_target
cover the file's chapters exactly (concatenating their chapter lists in
order yields the original chapter list), and the same coverage holds for
split_by_chapter_count for every positive chapters-per-episode value. -/
theorem C2_coverage (mkv : MkvFile) (T tol : ℚ) (s1 n s2 : ℕ)
    (hne : mkv.chapters ≠ []) (hn : 0 < n) :
    ((split_by_duration_target mkv T tol s1).map Episode.chapters).flatten = mkv.chapters ∧
    ((split_by_chapter_count mkv n s2).map Episode.chapters).flatten = mkv.chapters := by
  constructor
  · simpa using segGo_flatten mkv.total_duration T tol mkv.chapters [] 0 s1 hne
  · rw [split_by_chapter_count, numberChunks_flatten,
      chunkChapters_flatten n (Nat.pos_iff_ne_zero.mp hn)]

/-- Witness for C2 at a concrete file, target and chunk size. -/
theorem C2_coverage_witness :
    exFile4.chapters ≠ [] ∧ 0 < 3 ∧
    (((split_by_duration_target exFile4 1200 (1 / 5) 1).map Episode.chapters).flatten
        = exFile4.chapters ∧
      ((split_by_chapter_count exFile4 3 1).map Episode.chapters).flatten = exFile4.chapters) :=
  ⟨by decide, by decide, C2_coverage exFile4 1200 (1 / 5) 1 3 1 (by decide) (by decide)⟩

/- Minimum-duration invariant of the segmenter. -/

theorem shouldSplit_eq_false_of_lt (total target tol fs acc accN : ℚ)
    (hT : 0 ≤ target) (htol : 0 ≤ tol) (h : acc < target * (1 - tol)) :
    shouldSplit total target tol fs acc accN = false := by
  unfold shouldSplit
  rw [if_neg (not_le.mpr h)]
  have hle : target * (1 - tol) ≤ target * (1 + tol * 2) := by nlinarith
  rw [if_neg (not_lt.mpr (le_of_lt (lt_of_lt_of_le h hle)))]

theorem shouldSplit_min_of_true (total target tol fs acc accN : ℚ)
    (hT : 0 ≤ target) (htol : 0 ≤ tol)
    (h : shouldSplit total target tol fs acc accN = true) :
    target * (1 - tol) ≤ acc := by
  by_contra hlt
  push_neg at hlt
  rw [shouldSplit_eq_false_of_lt total target tol fs acc accN hT htol hlt] at h
  exact Bool.false_ne_true h

theorem sumDur_append (l : List Chapter) (c : Chapter) :
    sumDur (l ++ [c]) = sumDur l + c.duration := by
  simp [sumDur]

theorem segGo_nonfinal_min (total target tol : ℚ) (hT : 0 ≤ target) (htol : 0 ≤ tol) :
    ∀ (l cur : List Chapter) (acc : ℚ) (n : ℕ), acc = sumDur cur →
      ∀ (i : ℕ) (e : Episode), (segGo total target tol l cur acc n)[i]? = some e →
        i + 1 < (segGo total target tol l cur acc n).length →
        target * (1 - tol) ≤ sumDur e.chapters := by
  intro l
  induction l with
  | nil => intro cur acc n _ i e he _; simp [segGo] at he
  | cons c rest ih =>
    intro cur acc n hacc i e he hi
    cases rest with
    | nil =>
      simp only [segGo, List.length_singleton] at hi
      omega
    | cons next rest' =>
      by_cases hs : shouldSplit total target tol ((cur ++ [c]).headI).start_time
          (acc + c.duration) (acc + c.duration + next.duration) = true
      · simp only [segGo, if_pos hs] at he hi
        cases i with
        | zero =>
          simp only [List.getElem?_cons_zero, Option.some.injEq] at he
          have hmin := shouldSplit_min_of_true _ _ _ _ _ _ hT htol hs
          rw [← he, sumDur_append, ← hacc]
          exact hmin
        | succ j =>
          simp only [List.getElem?_cons_succ] at he
          simp only [List.length_cons] at hi
          exact ih [] 0 (n + 1) (by simp [sumDur]) j e he (by omega)
      · simp only [segGo, if_neg hs] at he hi
        exact ih (cur ++ [c]) (acc + c.duration) n (by rw [sumDur_append, hacc]) i e he hi

/-- Claim C10: for chapter lists of positive-duration chapters and any
tolerance r at least 0 (targets being durations, at least 0), every
non-final episode produced by split_by_duration_target has accumulated
duration at least T*(1-r), and the dedicated double-episode branch of
shouldSplit (taken only when the accumulator is still below T*(1-r)) can
never decide to split, so only the final episode can be short. -/
theorem C10_nonfinal_min (mkv : MkvFile) (T r : ℚ) (s : ℕ)
    (hT : 0 ≤ T) (hr : 0 ≤ r) (hpos : ∀ c ∈ mkv.chapters, 0 < c.duration) :
    (∀ (i : ℕ) (e : Episode), (split_by_duration_target mkv T r s)[i]? = some e →
        i + 1 < (split_by_duration_target mkv T r s).length →
        T * (1 - r) ≤ sumDur e.chapters) ∧
    (∀ total fs acc accN : ℚ, acc < T * (1 - r) →
        shouldSplit total T r fs acc accN = false) := by
  constructor
  · intro i e he hi
    exact segGo_nonfinal_min mkv.total_duration T r hT hr mkv.chapters [] 0 s
      (by simp [sumDur]) i e he hi
  · intro total fs acc accN h
    exact shouldSplit_eq_false_of_lt total T r fs acc accN hT hr h

/-- Witness for C10 at a concrete file and target. -/
theorem C10_nonfinal_min_witness :
    (0 : ℚ) ≤ 1200 ∧ (0 : ℚ) ≤ 1 / 5 ∧ (∀ c ∈ exFile4.chapters, 0 < c.duration) ∧
    ((∀ (i : ℕ) (e : Episode), (split_by_duration_target exFile4 1200 (1 / 5) 1)[i]? = some e →
        i + 1 < (split_by_duration_target exFile4 1200 (1 / 5) 1).length →
        (1200 : ℚ) * (1 - 1 / 5) ≤ sumDur e.chapters) ∧
      (∀ total fs acc accN : ℚ, acc < 1200 * (1 - 1 / 5) →
          shouldSplit total 1200 (1 / 5) fs acc accN = false)) :=
  ⟨by norm_num, by norm_num,
    by norm_num [exFile4, exCh1, exCh2, exCh3, exCh4, Chapter.duration],
    C10_nonfinal_min exFile4 1200 (1 / 5) 1 (by norm_num) (by norm_num)
      (by norm_num [exFile4, exCh1, exCh2, exCh3, exCh4, Chapter.duration])⟩

/- The head episode of any segmenter run strictly extends the carried-in
chapter accumulator. -/

theorem segGo_head (total target tol : ℚ) :
    ∀ (l cur : List Chapter) (acc : ℚ) (n : ℕ), l ≠ [] →
      ∃ (e : Episode) (tail : List Episode) (p : List Chapter),
        segGo total target tol l cur acc n = e :: tail ∧ p ≠ [] ∧ e.chapters = cur ++ p := by
  intro l
  induction l with
  | nil => intro _ _ _ h; exact absurd rfl h
  | cons c rest ih =>
    intro cur acc n _
    cases rest with
    | nil =>
      exact ⟨Episode.mk n (cur ++ [c]), [], [c], by simp [segGo], by simp, rfl⟩
    | cons next rest' =>
      by_cases hs : shouldSplit total target tol ((cur ++ [c]).headI).start_time
          (acc + c.duration) (acc + c.duration + next.duration) = true
      · refine ⟨Episode.mk n (cur ++ [c]),
          segGo total target tol (next :: rest') [] 0 (n + 1), [c], ?_, by simp, rfl⟩
        simp [segGo, hs]
      · obtain ⟨e, tail, p, h1, h2, h3⟩ := ih (cur ++ [c]) (acc + c.duration) n (by simp)
        refine ⟨e, tail, c :: p, ?_, by simp, ?_⟩
        · simp only [segGo, if_neg hs]
          exact h1
        · rw [h3, List.append_assoc, List.singleton_append]

/-- Claim C3: at a non-final chapter whose accumulated duration has reached
T*(1-r) (with the chapter run contiguous, so the code's remaining time
total - (first start + acc) equals total - current chapter end), the
segmenter closes the episode at that chapter if and only if the remaining
time is at least 0.5*T and either closing is at least as close to the target
as deferring or deferring would exceed T*(1+2r); in particular when the
remaining time is below 0.5*T it keeps absorbing chapters. -/
theorem C3_close_iff (total T r : ℚ) (c next : Chapter) (rest cur : List Chapter)
    (acc : ℚ) (n : ℕ)
    (hreach : T * (1 - r) ≤ acc + c.duration)
    (hcontig : ((cur ++ [c]).headI).start_time + (acc + c.duration) = c.end_time) :
    (segGo total T r (c :: next :: rest) cur acc n =
      Episode.mk n (cur ++ [c]) :: segGo total T r (next :: rest) [] 0 (n + 1)) ↔
    (T * (1 / 2) ≤ total - c.end_time ∧
      (|acc + c.duration - T| ≤ |acc + c.duration + next.duration - T| ∨
        T * (1 + 2 * r) < acc + c.duration + next.duration)) := by
  have hrem : total - (((cur ++ [c]).headI).start_time + (acc + c.duration)) =
      total - c.end_time := by rw [hcontig]
  constructor
  · intro heq
    by_cases hs : shouldSplit total T r ((cur ++ [c]).headI).start_time (acc + c.duration)
        (acc + c.duration + next.duration) = true
    · unfold shouldSplit at hs
      rw [if_pos hreach] at hs
      by_cases hrm : total - (((cur ++ [c]).headI).start_time + (acc + c.duration)) < T * (1 / 2)
      · rw [if_pos hrm] at hs
        exact absurd hs (by simp)
      · rw [if_neg hrm] at hs
        push_neg at hrm
        rw [hrem] at hrm
        refine ⟨hrm, ?_⟩
        simp only [Bool.or_eq_true, decide_eq_true_eq] at hs
        rcases hs with h | h
        · exact Or.inl h
        · refine Or.inr ?_
          have : T * (1 + r * 2) = T * (1 + 2 * r) := by ring
          rw [← this]
          exact h
    · exfalso
      simp only [segGo, if_neg hs] at heq
      obtain ⟨e, tail, p, h1, h2, h3⟩ :=
        segGo_head total T r (next :: rest) (cur ++ [c]) (acc + c.duration) n (by simp)
      rw [h1] at heq
      have he : e = Episode.mk n (cur ++ [c]) := (List.cons.injEq _ _ _ _).mp heq |>.1
      have hch : (cur ++ [c]) ++ p = cur ++ [c] := by
        rw [← h3, he]
      have hlen := congrArg List.length hch
      simp only [List.length_append] at hlen
      have : p.length = 0 := by omega
      exact h2 (List.eq_nil_of_length_eq_zero this)
  · intro hcond
    have hs : shouldSplit total T r ((cur ++ [c]).headI).start_time (acc + c.duration)
        (acc + c.duration + next.duration) = true := by
      unfold shouldSplit
      rw [if_pos hreach, if_neg (by rw [hrem]; exact not_lt.mpr hcond.1)]
      simp only [Bool.or_eq_true, decide_eq_true_eq]
      rcases hcond.2 with h | h
      · exact Or.inl h
      · refine Or.inr ?_
        have : T * (1 + r * 2) = T * (1 + 2 * r) := by ring
        rw [this]
        exact h
    simp only [segGo, if_pos hs]

/-- Witness for C3 at a concrete chapter state (closing is exactly on
target here, so the split happens). -/
theorem C3_close_iff_witness :
    ((1200 : ℚ) * (1 - 1 / 5) ≤ 0 + exCh2.duration + exCh2.duration ∧
      (([exCh1] ++ [exCh2]).headI).start_time + (0 + exCh2.duration + exCh2.duration)
        = exCh2.end_time) ∧
    ((segGo 2400 1200 (1 / 5) (exCh2 :: exCh3 :: [exCh4]) [exCh1] (0 + exCh2.duration) 1 =
      Episode.mk 1 ([exCh1] ++ [exCh2]) :: segGo 2400 1200 (1 / 5) (exCh3 :: [exCh4]) [] 0 2) ↔
    ((1200 : ℚ) * (1 / 2) ≤ 2400 - exCh2.end_time ∧
      (|0 + exCh2.duration + exCh2.duration - 1200| ≤
          |0 + exCh2.duration + exCh2.duration + exCh3.duration - 1200| ∨
        (1200 : ℚ) * (1 + 2 * (1 / 5)) < 0 + exCh2.duration + exCh2.duration + exCh3.duration))) :=
  ⟨⟨by norm_num [exCh2, Chapter.duration], by norm_num [exCh1, exCh2, Chapter.duration]⟩,
    C3_close_iff 2400 1200 (1 / 5) exCh2 exCh3 [exCh4] [exCh1] (0 + exCh2.duration) 1
      (by norm_num [exCh2, Chapter.duration])
      (by norm_num [exCh1, exCh2, Chapter.duration])⟩

/- Renumbering pass invariants. -/

theorem assignNumbers_map_number (es : List Episode) : ∀ n : ℕ,
    (assignNumbers n es).map Episode.number = List.range' n es.length := by
  induction es with
  | nil => intro n; rfl
  | cons e rest ih =>
    intro n
    simp [assignNumbers, List.range'_succ, ih]

theorem assignNumbers_length (es : List Episode) : ∀ n : ℕ,
    (assignNumbers n es).length = es.length := by
  induction es with
  | nil => intro n; rfl
  | cons e rest ih => intro n; simp [assignNumbers, ih]

theorem activeEpisodeNumbers_cons (f : MkvFile) (fs : List MkvFile) :
    activeEpisodeNumbers (f :: fs) =
      (if f.skip then [] else f.episodes.map Episode.number) ++ activeEpisodeNumbers fs := by
  by_cases h : f.skip <;> simp [activeEpisodeNumbers, List.filter_cons, h]

theorem totalActiveEpisodes_cons (f : MkvFile) (fs : List MkvFile) :
    totalActiveEpisodes (f :: fs) =
      (if f.skip then 0 else f.episodes.length) + totalActiveEpisodes fs := by
  by_cases h : f.skip <;> simp [totalActiveEpisodes, List.filter_cons, h]

theorem renumberGo_active_numbers : ∀ (l : List MkvFile) (n : ℕ),
    activeEpisodeNumbers (renumberGo n l) = List.range' n (totalActiveEpisodes l) := by
  intro l
  induction l with
  | nil => intro n; rfl
  | cons f fs ih =>
    intro n
    by_cases hskip : f.skip = true
    · simp only [renumberGo, if_pos hskip, activeEpisodeNumbers_cons, totalActiveEpisodes_cons,
        hskip, if_true, ih]
      simp
    · have hf : f.skip = false := Bool.not_eq_true f.skip |>.mp hskip
      simp only [renumberGo, if_neg hskip, activeEpisodeNumbers_cons, totalActiveEpisodes_cons, hf,
        if_false, Bool.false_eq_true, ih, assignNumbers_map_number]
      rw [List.range'_append_1, Nat.add_comm]

theorem renumberGo_total : ∀ (l : List MkvFile) (n : ℕ),
    totalActiveEpisodes (renumberGo n l) = totalActiveEpisodes l := by
  intro l
  induction l with
  | nil => intro n; rfl
  | cons f fs ih =>
    intro n
    by_cases hskip : f.skip = true
    · simp only [renumberGo, if_pos hskip, totalActiveEpisodes_cons, ih]
    · have hf : f.skip = false := Bool.not_eq_true f.skip |>.mp hskip
      simp only [renumberGo, if_neg hskip, totalActiveEpisodes_cons, hf, Bool.false_eq_true,
        if_false, ih, assignNumbers_length]

theorem renumberGo_skipped : ∀ (l : List MkvFile) (n i : ℕ) (f g : MkvFile),
    l[i]? = some f → f.skip = true → (renumberGo n l)[i]? = some g → g = f := by
  intro l
  induction l with
  | nil => intro n i f g hf; simp at hf
  | cons a fs ih =>
    intro n i f g hf hskip hg
    cases i with
    | zero =>
      simp only [List.getElem?_cons_zero, Option.some.injEq] at hf
      have ha : a.skip = true := by rw [hf]; exact hskip
      simp only [renumberGo, if_pos ha, List.getElem?_cons_zero, Option.some.injEq] at hg
      exact hg.symm.trans hf
    | succ j =>
      simp only [List.getElem?_cons_succ] at hf
      by_cases ha : a.skip = true
      · simp only [renumberGo, if_pos ha, List.getElem?_cons_succ] at hg
        exact ih n j f g hf hskip hg
      · simp only [renumberGo, if_neg ha, List.getElem?_cons_succ] at hg
        exact ih _ j f g hf hskip hg

/-- Claim C6: every renumbering pass (run after every edit command and after
every valid skip toggle in the review loop) makes the episode numbers across
non-skipped files, in scan order, exactly 1..K where K is the total episode
count over non-skipped files, while skipped files are left entirely
untouched (they receive no numbers). -/
theorem C6_renumber (files : List MkvFile) (T : ℚ) :
    (activeEpisodeNumbers (renumber_all_episodes files) =
        List.range' 1 (totalActiveEpisodes files)) ∧
    (∀ (i : ℕ) (f g : MkvFile), files[i]? = some f → f.skip = true →
        (renumber_all_episodes files)[i]? = some g → g = f) ∧
    (∀ (n : ℕ) (s e : ℤ),
        activeEpisodeNumbers (reviewStep files T (ReviewCmd.editEp n s e)) =
          List.range' 1 (totalActiveEpisodes (reviewStep files T (ReviewCmd.editEp n s e)))) ∧
    (∀ i : ℕ, i < files.length →
        activeEpisodeNumbers (reviewStep files T (ReviewCmd.skipFile i)) =
          List.range' 1 (totalActiveEpisodes (reviewStep files T (ReviewCmd.skipFile i)))) := by
  have key : ∀ g : List MkvFile, activeEpisodeNumbers (renumber_all_episodes g) =
      List.range' 1 (totalActiveEpisodes (renumber_all_episodes g)) := by
    intro g
    rw [renumber_all_episodes, renumberGo_active_numbers, renumberGo_total]
  refine ⟨?_, ?_, ?_, ?_⟩
  · rw [renumber_all_episodes, renumberGo_active_numbers]
  · intro i f g hf hskip hg
    exact renumberGo_skipped files 1 i f g hf hskip hg
  · intro n s e
    exact key _
  · intro i hi
    simp only [reviewStep, if_pos hi]
    exact key _

/-- Witness for C6 on a concrete file list containing a skipped file. -/
theorem C6_renumber_witness :
    activeEpisodeNumbers (renumber_all_episodes [exFile4E, exFileSkip, exFile4E]) =
      List.range' 1 (totalActiveEpisodes [exFile4E, exFileSkip, exFile4E]) :=
  (C6_renumber [exFile4E, exFileSkip, exFile4E] 1200).1

/- Locating an episode by its global number. -/

theorem findEpGo_spec (E : ℕ) : ∀ (es : List Episode) (k i : ℕ),
    findEpGo E es k = some i →
      k ≤ i ∧ ∃ ep, es[i - k]? = some ep ∧ ep.number = E := by
  intro es
  induction es with
  | nil => intro k i h; simp [findEpGo] at h
  | cons ep rest ih =>
    intro k i h
    by_cases hn : ep.number = E
    · simp only [findEpGo, if_pos hn, Option.some.injEq] at h
      subst h
      exact ⟨le_rfl, ep, by simp, hn⟩
    · simp only [findEpGo, if_neg hn] at h
      obtain ⟨hk, ep', h1, h2⟩ := ih (k + 1) i h
      refine ⟨by omega, ep', ?_, h2⟩
      have hik : i - k = (i - (k + 1)) + 1 := by omega
      rw [hik, List.getElem?_cons_succ]
      exact h1

theorem findLocGo_spec (E : ℕ) : ∀ (l : List MkvFile) (k fi ei : ℕ),
    findLocGo E l k = some (fi, ei) →
      k ≤ fi ∧ ∃ mkv, l[fi - k]? = some mkv ∧ mkv.skip = false ∧
        ∃ ep, mkv.episodes[ei]? = some ep ∧ ep.number = E := by
  intro l
  induction l with
  | nil => intro k fi ei h; simp [findLocGo] at h
  | cons f fs ih =>
    intro k fi ei h
    by_cases hskip : f.skip = true
    · simp only [findLocGo, if_pos hskip] at h
      obtain ⟨hk, mkv, h1, h2⟩ := ih (k + 1) fi ei h
      refine ⟨by omega, mkv, ?_, h2⟩
      have hik : fi - k = (fi - (k + 1)) + 1 := by omega
      rw [hik, List.getElem?_cons_succ]
      exact h1
    · cases hfind : findEpGo E f.episodes 0 with
      | some i0 =>
        simp only [findLocGo, if_neg hskip, hfind, Option.some.injEq, Prod.mk.injEq] at h
        obtain ⟨hfi, hei⟩ := h
        subst hfi
        subst hei
        obtain ⟨-, ep, hep, hnum⟩ := findEpGo_spec E f.episodes 0 i0 hfind
        refine ⟨le_rfl, f, by simp, Bool.not_eq_true f.skip |>.mp hskip, ep, ?_, hnum⟩
        simpa using hep
      | none =>
        simp only [findLocGo, if_neg hskip, hfind] at h
        obtain ⟨hk, mkv, h1, h2⟩ := ih (k + 1) fi ei h
        refine ⟨by omega, mkv, ?_, h2⟩
        have hik : fi - k = (fi - (k + 1)) + 1 := by omega
        rw [hik, List.getElem?_cons_succ]
        exact h1

theorem take_set_succ : ∀ (l : List Episode) (i : ℕ) (a : Episode), i < l.length →
    (l.set i a).take (i + 1) = l.take i ++ [a] := by
  intro l
  induction l with
  | nil => intro i a h; simp at h
  | cons x xs ih =>
    intro i a h
    cases i with
    | zero => simp
    | succ j =>
      have h' : j < xs.length := by simpa using h
      show x :: (xs.set j a).take (j + 1) = (x :: xs.take j) ++ [a]
      rw [ih j a h']
      simp

/-- Claim C1: for an accepted edit of global episode E (new range starting at
the expected chapter and ending within bounds), edit_episode leaves every
episode before E and the edited E itself in place, and replaces all episodes
after E with exactly the segmenter's output on the file's chapters after the
edited range, same target duration, start number E+1; other files and the
edited file's chapter model are untouched. -/
theorem C1_edit (files : List MkvFile) (E : ℕ) (T : ℚ) (s e : ℕ) (fi ei : ℕ)
    (mkv : MkvFile) (ep : Episode)
    (hloc : find_episode_location files E = some (fi, ei))
    (hf : files[fi]? = some mkv)
    (hep : mkv.episodes[ei]? = some ep)
    (hs1 : 1 ≤ s) (hend : e ≤ mkv.chapters.length) (hse : s ≤ e)
    (hexp : (s : ℤ) = expected_start mkv ei)
    (hne : rangeChapters mkv (s : ℤ) (e : ℤ) ≠ []) :
    ep.number = E ∧
    ∃ mkv' : MkvFile,
      edit_episode files E T (s : ℤ) (e : ℤ) = files.set fi mkv' ∧
      mkv'.path = mkv.path ∧ mkv'.chapters = mkv.chapters ∧
      mkv'.total_duration = mkv.total_duration ∧ mkv'.skip = mkv.skip ∧
      mkv'.episodes.take ei = mkv.episodes.take ei ∧
      mkv'.episodes[ei]? = some (Episode.mk E (rangeChapters mkv (s : ℤ) (e : ℤ))) ∧
      mkv'.episodes.drop (ei + 1) =
        split_by_duration_target (tempFileFor mkv (tailChapters mkv (e : ℤ))) T (1 / 5)
          (E + 1) ∧
      ∀ j : ℕ, j ≠ fi → (edit_episode files E T (s : ℤ) (e : ℤ))[j]? = files[j]? := by
  obtain ⟨-, mkv0, hmk0, hskip0, ep0, hep0, hnum0⟩ :=
    findLocGo_spec E files 0 fi ei hloc
  rw [Nat.sub_zero, hf] at hmk0
  have hmkEq : mkv = mkv0 := by injection hmk0
  rw [← hmkEq, hep] at hep0
  have hepEq : ep = ep0 := by injection hep0
  have hnum : ep.number = E := by rw [hepEq]; exact hnum0
  have hc1 : ¬((s : ℤ) < 1 ∨ (mkv.chapters.length : ℤ) < (e : ℤ) ∨ (e : ℤ) < (s : ℤ)) := by
    push_neg
    refine ⟨by exact_mod_cast hs1, by exact_mod_cast hend, by exact_mod_cast hse⟩
  have hc2 : ¬((s : ℤ) ≠ expected_start mkv ei) := by simpa using hexp
  have hN : (if tailChapters mkv (e : ℤ) = [] then []
      else split_by_duration_target (tempFileFor mkv (tailChapters mkv (e : ℤ))) T (1 / 5)
        (ep.number + 1)) =
      split_by_duration_target (tempFileFor mkv (tailChapters mkv (e : ℤ))) T (1 / 5)
        (ep.number + 1) := by
    by_cases hrem : tailChapters mkv (e : ℤ) = []
    · rw [if_pos hrem]
      simp [split_by_duration_target, tempFileFor, hrem, segGo]
    · rw [if_neg hrem]
  have heq : edit_episode files E T (s : ℤ) (e : ℤ) =
      files.set fi
        (MkvFile.mk mkv.path mkv.chapters mkv.total_duration
          (((mkv.episodes.set ei
              (Episode.mk ep.number (rangeChapters mkv (s : ℤ) (e : ℤ)))).take (ei + 1)) ++
            split_by_duration_target (tempFileFor mkv (tailChapters mkv (e : ℤ))) T (1 / 5)
              (ep.number + 1)) mkv.skip) := by
    simp only [edit_episode, hloc, hf, hep, if_neg hc1, if_neg hc2, if_neg hne]
    rw [hN]
  have hei : ei < mkv.episodes.length := by
    by_contra hge
    push_neg at hge
    rw [List.getElem?_eq_none hge] at hep
    exact Option.noConfusion hep
  have hkept : (mkv.episodes.set ei
      (Episode.mk ep.number (rangeChapters mkv (s : ℤ) (e : ℤ)))).take (ei + 1) =
      mkv.episodes.take ei ++ [Episode.mk E (rangeChapters mkv (s : ℤ) (e : ℤ))] := by
    rw [take_set_succ mkv.episodes ei _ hei, hnum]
  have hlenA : (mkv.episodes.take ei).length = ei := by
    rw [List.length_take]
    omega
  refine ⟨hnum, MkvFile.mk mkv.path mkv.chapters mkv.total_duration
      ((mkv.episodes.take ei ++ [Episode.mk E (rangeChapters mkv (s : ℤ) (e : ℤ))]) ++
        split_by_duration_target (tempFileFor mkv (tailChapters mkv (e : ℤ))) T (1 / 5)
          (E + 1)) mkv.skip, ?_, rfl, rfl, rfl, rfl, ?_, ?_, ?_, ?_⟩
  · rw [heq, hkept, hnum]
  · show ((mkv.episodes.take ei ++ [_]) ++ _).take ei = mkv.episodes.take ei
    rw [List.append_assoc, List.take_append_eq_append_take, List.take_of_length_le (le_of_eq hlenA),
      hlenA, Nat.sub_self, List.take_zero, List.append_nil]
  · show ((mkv.episodes.take ei ++ [_]) ++ _)[ei]? = _
    rw [List.append_assoc, List.getElem?_append_right (le_of_eq hlenA), hlenA, Nat.sub_self]
    simp
  · show ((mkv.episodes.take ei ++ [_]) ++ _).drop (ei + 1) = _
    have hlen : (mkv.episodes.take ei ++
        [Episode.mk E (rangeChapters mkv (s : ℤ) (e : ℤ))]).length = ei + 1 := by
      rw [List.length_append, hlenA]
      rfl
    rw [← hlen, List.drop_left]
  · intro j hj
    rw [heq, List.getElem?_set_ne (fun hfij => hj hfij.symm)]

/-- Witness for C1: editing episode 1 of a two-episode file to cover
chapters 1-3 re-segments chapter 4 into a new episode 2. -/
theorem C1_edit_witness :
    find_episode_location [exFile4E] 1 = some (0, 0) ∧
    (exEp1.number = 1 ∧
      ∃ mkv' : MkvFile,
        edit_episode [exFile4E] 1 1200 ((1 : ℕ) : ℤ) ((3 : ℕ) : ℤ) = [exFile4E].set 0 mkv' ∧
        mkv'.path = exFile4E.path ∧ mkv'.chapters = exFile4E.chapters ∧
        mkv'.total_duration = exFile4E.total_duration ∧ mkv'.skip = exFile4E.skip ∧
        mkv'.episodes.take 0 = exFile4E.episodes.take 0 ∧
        mkv'.episodes[0]? = some (Episode.mk 1 (rangeChapters exFile4E ((1 : ℕ) : ℤ) ((3 : ℕ) : ℤ))) ∧
        mkv'.episodes.drop 1 =
          split_by_duration_target (tempFileFor exFile4E (tailChapters exFile4E ((3 : ℕ) : ℤ)))
            1200 (1 / 5) 2 ∧
        ∀ j : ℕ, j ≠ 0 →
          (edit_episode [exFile4E] 1 1200 ((1 : ℕ) : ℤ) ((3 : ℕ) : ℤ))[j]? = [exFile4E][j]?) :=
  ⟨by decide,
    C1_edit [exFile4E] 1 1200 1 3 0 0 exFile4E exEp1 (by decide) (by decide) (by decide)
      (by decide) (by decide) (by decide) (by decide) (by decide)⟩

/-- Claim C9: an edit command whose proposed range is invalid (start below 1,
end beyond the chapter count, start above end, or start not equal to the
chapter immediately after the prior episode / chapter 1 for the first
episode) is rejected and the in-memory plan state is completely unchanged. -/
theorem C9_invalid_edit (files : List MkvFile) (E : ℕ) (T : ℚ) (s e : ℤ) (fi ei : ℕ)
    (mkv : MkvFile) (ep : Episode)
    (hloc : find_episode_location files E = some (fi, ei))
    (hf : files[fi]? = some mkv)
    (hep : mkv.episodes[ei]? = some ep)
    (hbad : s < 1 ∨ (mkv.chapters.length : ℤ) < e ∨ e < s ∨ s ≠ expected_start mkv ei) :
    edit_episode files E T s e = files := by
  by_cases hc1 : s < 1 ∨ (mkv.chapters.length : ℤ) < e ∨ e < s
  · simp only [edit_episode, hloc, hf, hep, if_pos hc1]
  · have hc2 : s ≠ expected_start mkv ei := by
      rcases hbad with h | h | h | h
      · exact absurd (Or.inl h) hc1
      · exact absurd (Or.inr (Or.inl h)) hc1
      · exact absurd (Or.inr (Or.inr h)) hc1
      · exact h
    simp only [edit_episode, hloc, hf, hep, if_neg hc1, if_pos hc2]

/-- Witness for C9: editing episode 2 with start chapter 2 (the prior episode
ends at chapter 2, so the expected start is 3) leaves the state unchanged. -/
theorem C9_invalid_edit_witness :
    ((2 : ℤ) < 1 ∨ (exFile4E.chapters.length : ℤ) < 4 ∨ (4 : ℤ) < 2 ∨
      (2 : ℤ) ≠ expected_start exFile4E 1) ∧
    edit_episode [exFile4E] 2 1200 2 4 = [exFile4E] :=
  ⟨by decide,
    C9_invalid_edit [exFile4E] 2 1200 2 4 0 1 exFile4E exEp2 (by decide) (by decide)
      (by decide) (by decide)⟩

/- Concrete evaluation of the candidate search.  On exFile2 (one 20-minute
file) every target yields a single episode, so every candidate is rejected by
the fewer-than-two-episodes check; on exFile4 (one 40-minute file) target 20
survives and targets 22-26 are skipped by the duplicate-estimate check. -/

set_option maxHeartbeats 1000000 in
theorem tt2_20 : tryTarget [exFile2] [] 20 = none := by
  norm_num [tryTarget, pythonRound, totalRuntime, runAllFiles, split_by_duration_target, segGo,
    shouldSplit, exFile2, exCh1, exCh2, Chapter.duration, Episode.duration, Episode.start_time,
    Episode.end_time, meanQ, popVar, List.getLastI, List.headI]

set_option maxHeartbeats 1000000 in
theorem tt2_22 : tryTarget [exFile2] [] 22 = none := by
  norm_num [tryTarget, pythonRound, totalRuntime, runAllFiles, split_by_duration_target, segGo,
    shouldSplit, exFile2, exCh1, exCh2, Chapter.duration, Episode.duration, Episode.start_time,
    Episode.end_time, meanQ, popVar, List.getLastI, List.headI]

set_option maxHeartbeats 1000000 in
theorem tt2_24 : tryTarget [exFile2] [] 24 = none := by
  norm_num [tryTarget, pythonRound, totalRuntime, runAllFiles, split_by_duration_target, segGo,
    shouldSplit, exFile2, exCh1, exCh2, Chapter.duration, Episode.duration, Episode.start_time,
    Episode.end_time, meanQ, popVar, List.getLastI, List.headI]

set_option maxHeartbeats 1000000 in
theorem tt2_26 : tryTarget [exFile2] [] 26 = none := by
  norm_num [tryTarget, pythonRound, totalRuntime, runAllFiles, split_by_duration_target, segGo,
    shouldSplit, exFile2, exCh1, exCh2, Chapter.duration, Episode.duration, Episode.start_time,
    Episode.end_time, meanQ, popVar, List.getLastI, List.headI]

set_option maxHeartbeats 1000000 in
theorem tt2_28 : tryTarget [exFile2] [] 28 = none := by
  norm_num [tryTarget, pythonRound, totalRuntime, runAllFiles, split_by_duration_target, segGo,
    shouldSplit, exFile2, exCh1, exCh2, Chapter.duration, Episode.duration, Episode.start_time,
    Episode.end_time, meanQ, popVar, List.getLastI, List.headI]

set_option maxHeartbeats 1000000 in
theorem tt2_30 : tryTarget [exFile2] [] 30 = none := by
  norm_num [tryTarget, pythonRound, totalRuntime, runAllFiles, split_by_duration_target, segGo,
    shouldSplit, exFile2, exCh1, exCh2, Chapter.duration, Episode.duration, Episode.start_time,
    Episode.end_time, meanQ, popVar, List.getLastI, List.headI]

theorem tt4_20 : tryTarget [exFile4] [] 20 = some cand20 := by
  have hest : pythonRound (totalRuntime [exFile4] / (((20 : ℕ) : ℚ) * 60)) = 2 := by
    norm_num [pythonRound, totalRuntime, exFile4]
  have heps : runAllFiles (((20 : ℕ) : ℚ) * 60) [exFile4] 1 = [exEp1, exEp2] := by
    norm_num [runAllFiles, split_by_duration_target, segGo, shouldSplit, exFile4, exCh1, exCh2,
      exCh3, exCh4, Chapter.duration, List.headI, exEp1, exEp2]
  simp only [tryTarget]
  rw [hest, if_neg (by norm_num), if_neg (by simp), heps, if_neg (by simp), if_neg (by simp),
    if_neg (by
      rw [not_not]
      norm_num [meanQ, Episode.duration, Episode.start_time, Episode.end_time, List.getLastI,
        List.headI, exEp1, exEp2, exCh1, exCh2, exCh3, exCh4])]
  norm_num [meanQ, popVar, Episode.duration, Episode.start_time, Episode.end_time, List.getLastI,
    List.headI, exEp1, exEp2, exCh1, exCh2, exCh3, exCh4, cand20]

theorem tt4_22 : tryTarget [exFile4] [cand20] 22 = none := by
  have hest : pythonRound (totalRuntime [exFile4] / (((22 : ℕ) : ℚ) * 60)) = 2 := by
    norm_num [pythonRound, totalRuntime, exFile4]
  simp only [tryTarget]
  rw [hest, if_neg (by norm_num), if_pos (by norm_num [cand20])]

theorem tt4_24 : tryTarget [exFile4] [cand20] 24 = none := by
  have hest : pythonRound (totalRuntime [exFile4] / (((24 : ℕ) : ℚ) * 60)) = 2 := by
    norm_num [pythonRound, totalRuntime, exFile4]
  simp only [tryTarget]
  rw [hest, if_neg (by norm_num), if_pos (by norm_num [cand20])]

theorem tt4_26 : tryTarget [exFile4] [cand20] 26 = none := by
  have hest : pythonRound (totalRuntime [exFile4] / (((26 : ℕ) : ℚ) * 60)) = 2 := by
    norm_num [pythonRound, totalRuntime, exFile4]
  simp only [tryTarget]
  rw [hest, if_neg (by norm_num), if_pos (by norm_num [cand20])]

theorem tt4_28 : tryTarget [exFile4] [cand20] 28 = none := by
  have hest : pythonRound (totalRuntime [exFile4] / (((28 : ℕ) : ℚ) * 60)) = 1 := by
    norm_num [pythonRound, totalRuntime, exFile4]
  have heps : runAllFiles (((28 : ℕ) : ℚ) * 60) [exFile4] 1 =
      [Episode.mk 1 [exCh1, exCh2, exCh3, exCh4]] := by
    norm_num [runAllFiles, split_by_duration_target, segGo, shouldSplit, exFile4, exCh1, exCh2,
      exCh3, exCh4, Chapter.duration, List.headI]
  simp only [tryTarget]
  rw [hest, if_neg (by norm_num), if_neg (by norm_num [cand20]), heps, if_neg (by simp),
    if_pos (by simp)]

theorem tt4_30 : tryTarget [exFile4] [cand20] 30 = none := by
  have hest : pythonRound (totalRuntime [exFile4] / (((30 : ℕ) : ℚ) * 60)) = 1 := by
    norm_num [pythonRound, totalRuntime, exFile4]
  have heps : runAllFiles (((30 : ℕ) : ℚ) * 60) [exFile4] 1 =
      [Episode.mk 1 [exCh1, exCh2, exCh3, exCh4]] := by
    norm_num [runAllFiles, split_by_duration_target, segGo, shouldSplit, exFile4, exCh1, exCh2,
      exCh3, exCh4, Chapter.duration, List.headI]
  simp only [tryTarget]
  rw [hest, if_neg (by norm_num), if_neg (by norm_num [cand20]), heps, if_neg (by simp),
    if_pos (by simp)]

theorem bc2 : buildCandidates [exFile2] = [] := by
  rw [buildCandidates, targetMinutesList]
  simp only [List.foldl_cons, List.foldl_nil, tt2_20, tt2_22, tt2_24, tt2_26, tt2_28, tt2_30]

theorem bc4 : buildCandidates [exFile4] = [cand20] := by
  rw [buildCandidates, targetMinutesList]
  simp only [List.foldl_cons, List.foldl_nil, tt4_20]
  simp only [List.nil_append, tt4_22, tt4_24, tt4_26, tt4_28, tt4_30]

theorem ad2 : auto_detect_all [exFile2] = none := by
  rw [auto_detect_all, bc2]
  rfl

theorem ad4 : auto_detect_all [exFile4] = some [exFile4E] := by
  have htd : cand20.target_duration = 1200 := rfl
  have hsplit : split_by_duration_target exFile4 1200 (1 / 5) 1 = [exEp1, exEp2] := by
    norm_num [split_by_duration_target, segGo, shouldSplit, exFile4, exCh1, exCh2, exCh3, exCh4,
      Chapter.duration, List.headI, exEp1, exEp2]
  have hpb : pickBest (buildCandidates [exFile4]) = some cand20 := by
    rw [bc4]
    rfl
  rw [auto_detect_all, hpb, Option.map_some', htd]
  simp only [applyTarget, hsplit]
  simp [exFile4, exFile4E]

/-- Counterexample to claim C4: on a single 20-minute two-chapter file, the
target 20 min is in the hypothesis set, the segmenter yields a non-empty
episode list whose mean duration is 20 minutes (inside [18,35]) and every
file yields at least one episode, so per the claim the candidate is not
rejected and auto-detection succeeds; the code nevertheless fails, because
a run yielding fewer than two episodes in total is also rejected. -/
theorem C4_counterexample :
    auto_detect_all [exFile2] = none ∧
    20 ∈ targetMinutesList ∧
    runAllFiles (((20 : ℕ) : ℚ) * 60) [exFile2] 1 ≠ [] ∧
    (18 : ℚ) ≤ meanQ ((runAllFiles (((20 : ℕ) : ℚ) * 60) [exFile2] 1).map Episode.duration) / 60 ∧
    meanQ ((runAllFiles (((20 : ℕ) : ℚ) * 60) [exFile2] 1).map Episode.duration) / 60 ≤ 35 ∧
    ∀ f ∈ [exFile2], 1 ≤ (split_by_duration_target f (((20 : ℕ) : ℚ) * 60) (1 / 5) 1).length := by
  have heps : runAllFiles (((20 : ℕ) : ℚ) * 60) [exFile2] 1 = [Episode.mk 1 [exCh1, exCh2]] := by
    norm_num [runAllFiles, split_by_duration_target, segGo, shouldSplit, exFile2, exCh1, exCh2,
      Chapter.duration, List.headI]
  have hsp : split_by_duration_target exFile2 (((20 : ℕ) : ℚ) * 60) (1 / 5) 1 =
      [Episode.mk 1 [exCh1, exCh2]] := by
    norm_num [split_by_duration_target, segGo, shouldSplit, exFile2, exCh1, exCh2,
      Chapter.duration, List.headI]
  refine ⟨ad2, by decide, ?_, ?_, ?_, ?_⟩
  · rw [heps]
    simp
  · rw [heps]
    norm_num [meanQ, Episode.duration, Episode.start_time, Episode.end_time, List.getLastI,
      List.headI, exCh1, exCh2]
  · rw [heps]
    norm_num [meanQ, Episode.duration, Episode.start_time, Episode.end_time, List.getLastI,
      List.headI, exCh1, exCh2]
  · intro f hf
    simp only [List.mem_singleton] at hf
    subst hf
    rw [hsp]
    simp

theorem tryTarget_props (files : List MkvFile) (prev : List Candidate) (m : ℕ) (c : Candidate)
    (h : tryTarget files prev m = some c) :
    2 ≤ c.total_episodes ∧ (18 : ℚ) ≤ c.avg_duration / 60 ∧ c.avg_duration / 60 ≤ 35 := by
  simp only [tryTarget] at h
  split at h
  · exact absurd h (by simp)
  split at h
  · exact absurd h (by simp)
  split at h
  · exact absurd h (by simp)
  split at h
  · exact absurd h (by simp)
  split at h
  · exact absurd h (by simp)
  rename_i h1 h2 h3 h4 h5
  rw [not_not] at h5
  injection h with hc
  rw [← hc]
  refine ⟨?_, h5.1, h5.2⟩
  show 2 ≤ (runAllFiles ((m : ℚ) * 60) files 1).length
  simp only [List.length_map] at h4
  omega

theorem buildCandidates_props (files : List MkvFile) :
    ∀ c ∈ buildCandidates files, 2 ≤ c.total_episodes ∧
      (18 : ℚ) ≤ c.avg_duration / 60 ∧ c.avg_duration / 60 ≤ 35 := by
  have key : ∀ (ms : List ℕ) (acc : List Candidate),
      (∀ c ∈ acc, 2 ≤ c.total_episodes ∧
        (18 : ℚ) ≤ c.avg_duration / 60 ∧ c.avg_duration / 60 ≤ 35) →
      ∀ c ∈ ms.foldl (fun acc m =>
          match tryTarget files acc m with
          | some c => acc ++ [c]
          | none => acc) acc,
        2 ≤ c.total_episodes ∧ (18 : ℚ) ≤ c.avg_duration / 60 ∧ c.avg_duration / 60 ≤ 35 := by
    intro ms
    induction ms with
    | nil => intro acc hacc c hc; exact hacc c hc
    | cons m ms ih =>
      intro acc hacc c hc
      rw [List.foldl_cons] at hc
      refine ih _ ?_ c hc
      intro c' hc'
      cases htt : tryTarget files acc m with
      | none =>
        simp only [htt] at hc'
        exact hacc c' hc'
      | some cNew =>
        simp only [htt] at hc'
        rcases List.mem_append.mp hc' with hmem | hnew
        · exact hacc c' hmem
        · rw [List.mem_singleton.mp hnew]
          exact tryTarget_props files acc m cNew htt
  intro c hc
  exact key targetMinutesList [] (by simp) c hc

/-- Claim C4, corrected: auto-detection fails exactly when no candidate is
accepted, and every accepted candidate has at least two episodes in total and
a mean episode duration inside [18,35] minutes (targets can additionally be
skipped before scoring by the estimated-count and duplicate-estimate checks,
as the counterexample shows). -/
theorem C4_amended (files : List MkvFile) :
    (auto_detect_all files = none ↔ buildCandidates files = []) ∧
    (∀ c ∈ buildCandidates files, 2 ≤ c.total_episodes ∧
      (18 : ℚ) ≤ c.avg_duration / 60 ∧ c.avg_duration / 60 ≤ 35) := by
  constructor
  · rw [auto_detect_all]
    cases hbc : buildCandidates files with
    | nil => simp [pickBest]
    | cons c cs => simp [pickBest]
  · exact buildCandidates_props files

/-- Witness for the amended C4 at concrete inputs: on [exFile4] the iff holds
and the surviving candidate meets the acceptance bounds. -/
theorem C4_amended_witness :
    (auto_detect_all [exFile4] = none ↔ buildCandidates [exFile4] = []) ∧
    (2 ≤ cand20.total_episodes ∧ (18 : ℚ) ≤ cand20.avg_duration / 60 ∧
      cand20.avg_duration / 60 ≤ 35) :=
  ⟨(C4_amended [exFile4]).1,
    (C4_amended [exFile4]).2 cand20 (by
      rw [bc4]
      exact List.mem_singleton.mpr rfl)⟩

/- The fold in pickBest returns the earliest candidate attaining the minimal
score, matching Python's stable sort followed by taking the first element. -/

theorem foldl_pickf_first : ∀ (cs : List Candidate) (b : Candidate),
    ∃ i, (b :: cs)[i]? = some (cs.foldl pickf b) ∧
      (∀ c ∈ b :: cs, (cs.foldl pickf b).cvSq ≤ c.cvSq) ∧
      (∀ (j : ℕ) (c : Candidate), j < i → (b :: cs)[j]? = some c →
        (cs.foldl pickf b).cvSq < c.cvSq) := by
  intro cs
  induction cs with
  | nil =>
    intro b
    refine ⟨0, by simp, ?_, fun j c hj _ => by omega⟩
    intro c hc
    rw [List.mem_singleton.mp hc]
    exact le_rfl
  | cons x xs ih =>
    intro b
    rw [List.foldl_cons]
    by_cases hx : x.cvSq < b.cvSq
    · rw [show pickf b x = x from if_pos hx]
      obtain ⟨i, h1, h2, h3⟩ := ih x
      refine ⟨i + 1, by simpa using h1, ?_, ?_⟩
      · intro c hc
        rcases List.mem_cons.mp hc with hcb | hc'
        · rw [hcb]
          exact le_of_lt (lt_of_le_of_lt (h2 x (List.mem_cons_self x xs)) hx)
        · exact h2 c hc'
      · intro j c hj hc
        cases j with
        | zero =>
          simp only [List.getElem?_cons_zero, Option.some.injEq] at hc
          rw [← hc]
          exact lt_of_le_of_lt (h2 x (List.mem_cons_self x xs)) hx
        | succ k =>
          simp only [List.getElem?_cons_succ] at hc
          exact h3 k c (by omega) hc
    · rw [show pickf b x = b from if_neg hx]
      obtain ⟨i, h1, h2, h3⟩ := ih b
      have hbx : b.cvSq ≤ x.cvSq := le_of_not_lt hx
      cases i with
      | zero =>
        simp only [List.getElem?_cons_zero, Option.some.injEq] at h1
        refine ⟨0, by simpa using h1, ?_, fun j c hj _ => by omega⟩
        intro c hc
        rcases List.mem_cons.mp hc with hcb | hc'
        · rw [hcb]
          exact h2 b (List.mem_cons_self b xs)
        rcases List.mem_cons.mp hc' with hcx | hc''
        · rw [hcx, ← h1]
          exact hbx
        · exact h2 c (List.mem_cons_of_mem b hc'')
      | succ k =>
        simp only [List.getElem?_cons_succ] at h1
        have hmb : (xs.foldl pickf b).cvSq < b.cvSq :=
          h3 0 b (Nat.succ_pos k) (by simp)
        refine ⟨k + 2, ?_, ?_, ?_⟩
        · simp only [List.getElem?_cons_succ]
          exact h1
        · intro c hc
          rcases List.mem_cons.mp hc with hcb | hc'
          · rw [hcb]
            exact le_of_lt hmb
          rcases List.mem_cons.mp hc' with hcx | hc''
          · rw [hcx]
            exact le_of_lt (lt_of_lt_of_le hmb hbx)
          · exact h2 c (List.mem_cons_of_mem b hc'')
        · intro j c hj hc
          cases j with
          | zero =>
            simp only [List.getElem?_cons_zero, Option.some.injEq] at hc
            rw [← hc]
            exact hmb
          | succ t =>
            simp only [List.getElem?_cons_succ] at hc
            cases t with
            | zero =>
              simp only [List.getElem?_cons_zero, Option.some.injEq] at hc
              rw [← hc]
              exact lt_of_lt_of_le hmb hbx
            | succ u =>
              simp only [List.getElem?_cons_succ] at hc
              refine h3 (u + 1) c (by omega) ?_
              simpa using hc

theorem pickBest_first (l : List Candidate) (b : Candidate) (h : pickBest l = some b) :
    b ∈ l ∧ (∀ c ∈ l, b.cvSq ≤ c.cvSq) ∧
      ∃ i, l[i]? = some b ∧ ∀ (j : ℕ) (c : Candidate), j < i → l[j]? = some c →
        b.cvSq < c.cvSq := by
  cases l with
  | nil => simp [pickBest] at h
  | cons c cs =>
    simp only [pickBest, Option.some.injEq] at h
    obtain ⟨i, h1, h2, h3⟩ := foldl_pickf_first cs c
    rw [h] at h1 h2 h3
    exact ⟨List.getElem?_mem h1, h2, i, h1, h3⟩

/-- Claim C5: a successful auto-detect applies the plan of a surviving
candidate with the minimal score; comparing stored cvSq values is exactly
comparing the code's cv values (cv = sqrt(cvSq), strictly monotone on the
nonnegative scores of survivors), and everything strictly earlier in the
candidate list (earlier-tested targets) scores strictly worse, which is the
stable-sort tie-break: on equal scores the earliest-tested target wins. -/
theorem C5_lowest_cv (files : List MkvFile) (out : List MkvFile)
    (h : auto_detect_all files = some out) :
    ∃ best : Candidate,
      pickBest (buildCandidates files) = some best ∧
      out = applyTarget best.target_duration files 1 ∧
      best ∈ buildCandidates files ∧
      (∀ c ∈ buildCandidates files, best.cvSq ≤ c.cvSq) ∧
      ∃ i, (buildCandidates files)[i]? = some best ∧
        ∀ (j : ℕ) (c : Candidate), j < i → (buildCandidates files)[j]? = some c →
          best.cvSq < c.cvSq := by
  rw [auto_detect_all] at h
  cases hpb : pickBest (buildCandidates files) with
  | none =>
    rw [hpb] at h
    simp at h
  | some best =>
    rw [hpb] at h
    simp only [Option.map_some', Option.some.injEq] at h
    obtain ⟨hmem, hmin, i, hi, hstrict⟩ := pickBest_first _ best hpb
    exact ⟨best, rfl, h.symm, hmem, hmin, i, hi, hstrict⟩

/-- Witness for C5 on the concrete successful detection over [exFile4]. -/
theorem C5_lowest_cv_witness :
    auto_detect_all [exFile4] = some [exFile4E] ∧
    ∃ best : Candidate,
      pickBest (buildCandidates [exFile4]) = some best ∧
      [exFile4E] = applyTarget best.target_duration [exFile4] 1 ∧
      best ∈ buildCandidates [exFile4] ∧
      (∀ c ∈ buildCandidates [exFile4], best.cvSq ≤ c.cvSq) ∧
      ∃ i, (buildCandidates [exFile4])[i]? = some best ∧
        ∀ (j : ℕ) (c : Candidate), j < i → (buildCandidates [exFile4])[j]? = some c →
          best.cvSq < c.cvSq :=
  ⟨ad4, C5_lowest_cv [exFile4] [exFile4E] ad4⟩

/- Materialization plan lemmas. -/

theorem outputSpecs_length (sn : String) (se : ℕ) : ∀ (es : List Episode) (k : ℕ),
    (outputSpecs sn se k es).length = es.length := by
  intro es
  induction es with
  | nil => intro k; rfl
  | cons ep rest ih => intro k; simp [outputSpecs, ih]

theorem outputSpecs_getElem (sn : String) (se : ℕ) :
    ∀ (es : List Episode) (k i : ℕ) (e : Episode), es[i]? = some e →
      (outputSpecs sn se k es)[i]? =
        some (OutputSpec.mk (k + i + 1) (episodeFileName sn se e.number) true) := by
  intro es
  induction es with
  | nil => intro k i e he; simp at he
  | cons ep rest ih =>
    intro k i e he
    cases i with
    | zero =>
      simp only [List.getElem?_cons_zero, Option.some.injEq] at he
      simp only [outputSpecs, List.getElem?_cons_zero, Option.some.injEq]
      rw [← he]
    | succ j =>
      simp only [List.getElem?_cons_succ] at he
      simp only [outputSpecs, List.getElem?_cons_succ]
      have hn : k + (j + 1) + 1 = (k + 1) + j + 1 := by omega
      rw [hn]
      exact ih (k + 1) j e he

/-- Claim C7: for a non-skipped file with at least one episode, the
materialization plan requests a split at the first chapter index of every
later episode (under contiguity, exactly one past the previous episode's
last chapter -- the cut immediately precedes the episode boundary), requests
a plain remux instead when the file has exactly one episode, and maps parts
1:1 in order to episodes, naming part i+1 after episode i's global number in
the format show_name S{season}E{number}.mkv with a chapter renumber request
on every output. -/
theorem C7_materialize (mkv : MkvFile) (show_name : String) (season : ℕ)
    (hne : mkv.episodes ≠ [])
    (hcontig : ∀ (i : ℕ) (e e' : Episode), mkv.episodes[i]? = some e →
      mkv.episodes[i + 1]? = some e' →
      (e'.chapters.headI).index = (e.chapters.getLastI).index + 1) :
    ∃ req outs, process_file_plan mkv show_name season = some (req, outs) ∧
      (mkv.episodes.length = 1 → req = ToolRequest.remux) ∧
      (2 ≤ mkv.episodes.length →
        req = ToolRequest.splitAt (splitPoints mkv) ∧ splitPoints mkv ≠ []) ∧
      (∀ (i : ℕ) (e e' : Episode), mkv.episodes[i]? = some e →
        mkv.episodes[i + 1]? = some e' →
        (splitPoints mkv)[i]? = some ((e.chapters.getLastI).index + 1)) ∧
      outs.length = mkv.episodes.length ∧
      (∀ (i : ℕ) (e : Episode), mkv.episodes[i]? = some e →
        outs[i]? = some (OutputSpec.mk (i + 1) (episodeFileName show_name season e.number)
          true)) := by
  refine ⟨if splitPoints mkv = [] then ToolRequest.remux else ToolRequest.splitAt (splitPoints mkv),
    outputSpecs show_name season 0 mkv.episodes, by simp [process_file_plan, hne], ?_, ?_, ?_,
    outputSpecs_length show_name season mkv.episodes 0, ?_⟩
  · intro hlen1
    have hdrop : mkv.episodes.drop 1 = [] := by
      rw [List.drop_eq_nil_iff]
      omega
    have hsp : splitPoints mkv = [] := by
      rw [splitPoints, hdrop]
      rfl
    rw [if_pos hsp]
  · intro hlen2
    have hsp : splitPoints mkv ≠ [] := by
      rw [splitPoints]
      simp only [ne_eq, List.map_eq_nil_iff, List.drop_eq_nil_iff]
      omega
    rw [if_neg hsp]
    exact ⟨rfl, hsp⟩
  · intro i e e' he he'
    rw [splitPoints, List.getElem?_map, List.getElem?_drop]
    have h1i : 1 + i = i + 1 := by omega
    rw [h1i, he']
    simp only [Option.map_some']
    rw [hcontig i e e' he he']
  · intro i e he
    have h := outputSpecs_getElem show_name season mkv.episodes 0 i e he
    simpa using h

/-- Witness for C7 at the concrete two-episode plan. -/
theorem C7_materialize_witness :
    exFile4E.episodes ≠ [] ∧
    (∀ (i : ℕ) (e e' : Episode), exFile4E.episodes[i]? = some e →
      exFile4E.episodes[i + 1]? = some e' →
      (e'.chapters.headI).index = (e.chapters.getLastI).index + 1) ∧
    (∃ req outs, process_file_plan exFile4E "Show" 1 = some (req, outs) ∧
      (exFile4E.episodes.length = 1 → req = ToolRequest.remux) ∧
      (2 ≤ exFile4E.episodes.length →
        req = ToolRequest.splitAt (splitPoints exFile4E) ∧ splitPoints exFile4E ≠ []) ∧
      (∀ (i : ℕ) (e e' : Episode), exFile4E.episodes[i]? = some e →
        exFile4E.episodes[i + 1]? = some e' →
        (splitPoints exFile4E)[i]? = some ((e.chapters.getLastI).index + 1)) ∧
      outs.length = exFile4E.episodes.length ∧
      (∀ (i : ℕ) (e : Episode), exFile4E.episodes[i]? = some e →
        outs[i]? = some (OutputSpec.mk (i + 1) (episodeFileName "Show" 1 e.number) true))) := by
  have hcontig : ∀ (i : ℕ) (e e' : Episode), exFile4E.episodes[i]? = some e →
      exFile4E.episodes[i + 1]? = some e' →
      (e'.chapters.headI).index = (e.chapters.getLastI).index + 1 := by
    intro i e e' he he'
    cases i with
    | zero =>
      simp only [exFile4E, List.getElem?_cons_zero, List.getElem?_cons_succ,
        Option.some.injEq] at he he'
      rw [← he, ← he']
      decide
    | succ j =>
      cases j with
      | zero =>
        simp only [exFile4E, List.getElem?_cons_succ, List.getElem?_nil] at he'
        exact Option.noConfusion he'
      | succ k =>
        simp only [exFile4E, List.getElem?_cons_succ, List.getElem?_nil] at he'
        exact Option.noConfusion he'
  exact ⟨by decide, hcontig, C7_materialize exFile4E "Show" 1 (by decide) hcontig⟩

/- Oracle-run lemmas for materialization. -/

theorem runEpisodes_all_present (oracle : ToolOracle) (sn : String) (se : ℕ) :
    ∀ (es : List Episode) (i : ℕ) (outs warns : List String),
      (∀ j, j < es.length → oracle.partPresent (i + j + 1) = true) →
      (runEpisodes oracle sn se i es outs warns).1 = true ∧
      (runEpisodes oracle sn se i es outs warns).2.1 =
        outs ++ es.map (fun e => episodeFileName sn se e.number) := by
  intro es
  induction es with
  | nil => intro i outs warns _; exact ⟨rfl, by simp [runEpisodes]⟩
  | cons ep rest ih =>
    intro i outs warns hp
    have hp0 : oracle.partPresent (i + 1) = true := by
      have h := hp 0 (by simp)
      simpa using h
    simp only [runEpisodes, hp0, if_true]
    have hrest : ∀ j, j < rest.length → oracle.partPresent ((i + 1) + j + 1) = true := by
      intro j hj
      have h := hp (j + 1) (by simpa using Nat.succ_lt_succ hj)
      have hn : i + (j + 1) + 1 = (i + 1) + j + 1 := by omega
      rw [hn] at h
      exact h
    obtain ⟨ha, hb⟩ := ih (i + 1) (outs ++ [episodeFileName sn se ep.number])
      (if oracle.renumberOk (i + 1) then warns else warns ++ [renumberWarning]) hrest
    refine ⟨ha, ?_⟩
    rw [hb]
    simp

/-- Counterexample to claim C8: with the split call succeeding, all parts
present, and every chapter-renumber call failing, the file's materialization
is NOT aborted (it is reported as a success), the two renamed outputs remain,
and only warnings are printed -- contradicting the claim that a renumber
failure aborts the file and removes its partial output. -/
theorem C8_counterexample :
    (process_file_model (ToolOracle.mk true (fun _ => true) (fun _ => false))
        exFile4E "Show" 1).1 = true ∧
    (process_file_model (ToolOracle.mk true (fun _ => true) (fun _ => false))
        exFile4E "Show" 1).2.1 = ["Show S01E01.mkv", "Show S01E02.mkv"] ∧
    (process_file_model (ToolOracle.mk true (fun _ => true) (fun _ => false))
        exFile4E "Show" 1).2.2 = [renumberWarning, renumberWarning] :=
  ⟨rfl, rfl, rfl⟩

/-- Claim C8, corrected: a failing SPLIT call aborts the file's
materialization with all its temporary output removed, and the batch always
continues over every remaining non-skipped file; a failing chapter-renumber
call, however, only prints a warning -- the file still succeeds and keeps
all its outputs (regardless of the renumber oracle). -/
theorem C8_amended (oracle : ToolOracle) (mkv : MkvFile) (show_name : String) (season : ℕ)
    (oracles : ℕ → ToolOracle) (files : List MkvFile) :
    (mkv.episodes ≠ [] → oracle.splitOk = false →
      process_file_model oracle mkv show_name season = (false, [], [])) ∧
    (mkv.episodes ≠ [] → oracle.splitOk = true →
      (∀ j, j < mkv.episodes.length → oracle.partPresent (j + 1) = true) →
      (process_file_model oracle mkv show_name season).1 = true ∧
      (process_file_model oracle mkv show_name season).2.1 =
        mkv.episodes.map (fun e => episodeFileName show_name season e.number)) ∧
    (process_files_model oracles files show_name season).length =
      (files.filter (fun f => !f.skip)).length := by
  refine ⟨?_, ?_, ?_⟩
  · intro hne hsf
    simp [process_file_model, hne, hsf]
  · intro hne hst hp
    simp only [process_file_model, if_neg hne, hst, if_true]
    have h := runEpisodes_all_present oracle show_name season mkv.episodes 0 [] []
      (by intro j hj; simpa using hp j hj)
    simpa using h
  · simp [process_files_model]

/-- Witness for the amended C8 at concrete oracles and files. -/
theorem C8_amended_witness :
    (process_file_model (ToolOracle.mk false (fun _ => true) (fun _ => true))
        exFile4E "Show" 1 = (false, [], [])) ∧
    ((process_file_model (ToolOracle.mk true (fun _ => true) (fun _ => false))
        exFile4E "Show" 1).1 = true ∧
      (process_file_model (ToolOracle.mk true (fun _ => true) (fun _ => false))
        exFile4E "Show" 1).2.1 =
        exFile4E.episodes.map (fun e => episodeFileName "Show" 1 e.number)) ∧
    (process_files_model (fun _ => ToolOracle.mk false (fun _ => true) (fun _ => true))
        [exFile4E, exFileSkip] "Show" 1).length =
      ([exFile4E, exFileSkip].filter (fun f => !f.skip)).length :=
  ⟨(C8_amended (ToolOracle.mk false (fun _ => true) (fun _ => true)) exFile4E "Show" 1
      (fun _ => ToolOracle.mk false (fun _ => true) (fun _ => true)) [exFile4E, exFileSkip]).1
      (by decide) rfl,
    (C8_amended (ToolOracle.mk true (fun _ => true) (fun _ => false)) exFile4E "Show" 1
      (fun _ => ToolOracle.mk false (fun _ => true) (fun _ => true)) [exFile4E, exFileSkip]).2.1
      (by decide) rfl (fun j _ => rfl),
    (C8_amended (ToolOracle.mk false (fun _ => true) (fun _ => true)) exFile4E "Show" 1
      (fun _ => ToolOracle.mk false (fun _ => true) (fun _ => true)) [exFile4E, exFileSkip]).2.2⟩
